import Mathlib

/-!
Verification of the core of the `ic` comic viewer (mozvip/ic).

This file shallowly embeds the parts of the C sources that the verified
properties talk about:

* the filename comparators `image_name_compare` (the repository contains two
  variants: one built on `strcmp`, one built on glibc's `strverscmp`),
  `is_image_file`, `get_filename_from_path`, and the directory loader
  `load_directory` (comic_loaders_dir.c / comic_loaders_utils.c);
* `escape_shell_arg` (comic_loaders.c);
* the CBZ archive loader `cbz_open` / `cbz_get_image` (comic_loaders_cbz.c)
  and the progress-event traces of the open operations of all loaders;
* the view linked list, navigation, split/merge and the page-turn
  animation step of comic_viewer.c (SDL3 variant);
* the border auto-crop of `create_texture` and the dominant-color
  extraction `get_dominant_color` / `analyze_image_left_edge`.

C strings are modelled as `List Char` (NUL-terminated byte strings; the
terminator is represented by the end of the list, and reading past the end
yields the NUL character).  C `float` progress fractions and animation
progress are modelled as exact rationals; all fractions appearing in the
code (0.0, 0.1, …, 1.0, 0.05) and the monotonicity / threshold facts proved
about them are preserved by IEEE rounding, so the idealization is faithful
for the properties stated here.
-/

namespace IC

/-- The NUL character terminating C strings. -/
def nulChar : Char := Char.ofNat 0

/-- First character of a C string; NUL when the string is exhausted. -/
def headChar (l : List Char) : Char := l.headD nulChar

/-! ## `strcmp`-based comparator (comic_loaders_utils.c, first variant)

`image_name_compare` in the first variant of comic_loaders_utils.c is
`strcmp(*(const char **)a, *(const char **)b)`: plain byte-wise
lexicographic comparison. -/

/-- Model of C `strcmp` on NUL-terminated strings (unsigned char compare). -/
def strcmpM : List Char → List Char → Int
  | [], [] => 0
  | [], c :: _ => -(c.toNat : Int)
  | c :: _, [] => (c.toNat : Int)
  | a :: as, b :: bs => if a = b then strcmpM as bs else (a.toNat : Int) - (b.toNat : Int)

/-- `image_name_compare`, the variant implemented with `strcmp`
(comic_loaders_utils.c lines 251–254 of the concatenated file). -/
def image_name_compare_strcmp (a b : List Char) : Int := strcmpM a b

/-! ## `strverscmp`-based comparator (comic_loaders_utils.c, second variant)

The second variant of `image_name_compare` calls glibc's `strverscmp`.
The state machine below is the glibc algorithm: states S_N = 0, S_I = 3,
S_F = 6, S_Z = 9, with the character class of the current first-string
character added to the state. -/

/-- Character class used by `strverscmp`: 2 for '0', 1 for '1'-'9', 0 otherwise. -/
def vclass (c : Char) : Nat := if c = '0' then 2 else if c.isDigit then 1 else 0

/-- The `next_state` table of glibc `strverscmp` (12 entries, indexed by
state + class of the consumed character). -/
def vNextState : Nat → Nat
  | 0 => 0 | 1 => 3 | 2 => 9
  | 3 => 0 | 4 => 3 | 5 => 3
  | 6 => 0 | 7 => 6 | 8 => 6
  | 9 => 0 | 10 => 6 | 11 => 9
  | _ => 0

/-- Result kinds of the `result_type` table: direct byte difference,
digit-run length comparison, or a forced -1 / +1. -/
inductive VRes | cmp | len | lt | gt

/-- The `result_type` table of glibc `strverscmp` (36 entries, indexed by
`state * 3 + class of the second string's character`). -/
def vResultType : Nat → VRes
  | 0 => .cmp | 1 => .cmp | 2 => .cmp | 3 => .cmp | 4 => .len | 5 => .cmp
  | 6 => .cmp | 7 => .cmp | 8 => .cmp
  | 9 => .cmp | 10 => .lt | 11 => .lt | 12 => .gt | 13 => .len | 14 => .len
  | 15 => .gt | 16 => .len | 17 => .len
  | 18 => .cmp | 19 => .cmp | 20 => .cmp | 21 => .cmp | 22 => .cmp | 23 => .cmp
  | 24 => .cmp | 25 => .cmp | 26 => .cmp
  | 27 => .cmp | 28 => .gt | 29 => .gt | 30 => .lt | 31 => .cmp | 32 => .cmp
  | 33 => .lt | 34 => .cmp | 35 => .cmp
  | _ => .cmp

/-- The digit-run length comparison of `strverscmp` (the LEN case):
walk both strings in lockstep while the first still has digits; a longer
digit run wins, equal runs fall back to the first byte difference. -/
def vLenLoop : List Char → List Char → Int → Int
  | [], l2, diff => if (headChar l2).isDigit then -1 else diff
  | c1 :: t1, l2, diff =>
    if c1.isDigit then
      if (headChar l2).isDigit then vLenLoop t1 l2.tail diff else 1
    else
      if (headChar l2).isDigit then -1 else diff

/-- Main loop of `strverscmp`; `state` already includes the class of the
current first-string character. -/
def svAux (state : Nat) : List Char → List Char → Int
  | [], l2 =>
    let c2 := headChar l2
    if nulChar = c2 then 0
    else
      match vResultType (state * 3 + vclass c2) with
      | .cmp => (0 : Int) - (c2.toNat : Int)
      | .len => vLenLoop [] l2.tail (0 - (c2.toNat : Int))
      | .lt => -1
      | .gt => 1
  | c1 :: t1, l2 =>
    let c2 := headChar l2
    if c1 = c2 then
      if c1 = nulChar then 0
      else svAux (vNextState state + vclass (headChar t1)) t1 l2.tail
    else
      match vResultType (state * 3 + vclass c2) with
      | .cmp => (c1.toNat : Int) - (c2.toNat : Int)
      | .len => vLenLoop t1 l2.tail ((c1.toNat : Int) - (c2.toNat : Int))
      | .lt => -1
      | .gt => 1

/-- Model of glibc `strverscmp` (version-aware natural string comparison). -/
def strverscmpM (s1 s2 : List Char) : Int := svAux (vclass (headChar s1)) s1 s2

/-- `image_name_compare`, the variant implemented with `strverscmp`
(comic_loaders_utils.c lines 311–319 of the concatenated file). -/
def image_name_compare_natural (a b : List Char) : Int := strverscmpM a b

/-! ## `is_image_file` and `get_filename_from_path` -/

/-- ASCII lower-casing used to model `strcasecmp`. -/
def lowerStr (l : List Char) : List Char := l.map Char.toLower

/-- Extension of a filename: the part after the last '.', or none. -/
def extAfterLastDot : List Char → Option (List Char)
  | [] => none
  | c :: t =>
    match extAfterLastDot t with
    | some e => some e
    | none => if c = '.' then some t else none

/-- `is_image_file` (comic_loaders_utils.c): the file extension, compared
case-insensitively, is one of jpg/jpeg/png/gif/bmp/webp.  The C code spells
each comparison twice (lower and upper case); under `strcasecmp` both
halves are equivalent, so the model keeps one occurrence of each. -/
def is_image_file (filename : List Char) : Bool :=
  match extAfterLastDot filename with
  | none => false
  | some e =>
    let le := lowerStr e
    le = "jpg".toList || le = "jpeg".toList || le = "png".toList ||
    le = "gif".toList || le = "bmp".toList || le = "webp".toList

/-- `get_filename_from_path` (comic_loaders_utils.c): the part after the
last '/' or '\'; the whole path when there is no separator. -/
def get_filename_from_path (path : List Char) : List Char :=
  ((path.reverse.takeWhile (fun c => ¬ (c = '/' ∨ c = '\\'))).reverse)

/-! ## `load_directory` (comic_loaders_dir.c)

The directory listing is abstracted as the list of entries `readdir`
returns, in directory order: a name together with the flag
`d_type == DT_REG`.  `qsort` with a strict total comparator on distinct
keys has a unique sorted output, so it is modelled by a comparison sort
(`qsortM`, an insertion sort) with `le a b := cmp a b ≤ 0`.  The
comparator is a parameter because the repository contains both an
`strcmp`-based and an `strverscmp`-based `image_name_compare`. -/

/-- Insert into a sorted list, keeping earlier elements first on ties. -/
def insertSorted (le : α → α → Bool) (a : α) : List α → List α
  | [] => [a]
  | b :: t => if le a b then a :: b :: t else b :: insertSorted le a t

/-- Model of `qsort` with comparator-derived `le`: a comparison sort
(insertion sort; `qsort`'s output on strictly ordered distinct keys is
the unique `le`-sorted permutation, which this computes). -/
def qsortM (le : α → α → Bool) (l : List α) : List α :=
  l.foldr (insertSorted le) []

/-- The image paths `load_directory` collects before sorting: regular
entries whose name passes `is_image_file`, as `path ++ "/" ++ name`,
cut off at `max_images`. -/
def load_directory_found (dirPath : List Char) (listing : List (List Char × Bool))
    (maxImages : Nat) : List (List Char) :=
  ((listing.filter fun e => e.2 && is_image_file e.1).map
    fun e => dirPath ++ '/' :: e.1).take maxImages

/-- The sorted entry list `load_directory` stores into `images[]`. -/
def load_directory_entries (cmp : List Char → List Char → Int) (dirPath : List Char)
    (listing : List (List Char × Bool)) (maxImages : Nat) : List (List Char) :=
  qsortM (fun a b => cmp a b ≤ 0) (load_directory_found dirPath listing maxImages)

/-- The progress fractions `load_directory` reports, paired with its
success flag.  `dirOk` is whether `opendir` succeeds.  During the scan a
`0.5` is reported after every 5th image found; afterwards `0.7`, `0.9`
and the terminal `1.0` are reported on the success path, and `1.0` alone
when no image was found.  When `opendir` fails the function returns
after the initial `0.0` with no terminal call. -/
def load_directory_events (dirOk : Bool) (dirPath : List Char)
    (listing : List (List Char × Bool)) (maxImages : Nat) : List ℚ × Bool :=
  if ¬ dirOk then ([0], false)
  else
    let count := (load_directory_found dirPath listing maxImages).length
    let scan := List.replicate (count / 5) ((1 : ℚ) / 2)
    if count = 0 then (0 :: scan ++ [1], false)
    else (0 :: scan ++ [7 / 10, 9 / 10, 1], true)

/-! ## `escape_shell_arg` (comic_loaders.c, shown in IMAGE_QUALITY.md)

Allocates `2 * strlen(str) + 3` bytes, wraps the string in single quotes
and rewrites each embedded single quote as the four characters `'\''`,
then stores a terminating NUL. -/

/-- The single-quote character. -/
def quoteChar : Char := Char.ofNat 39

/-- The backslash character. -/
def backslashChar : Char := Char.ofNat 92

/-- The characters `escape_shell_arg` emits for one input character. -/
def escapeCharExp (c : Char) : List Char :=
  if c = quoteChar then [quoteChar, backslashChar, quoteChar, quoteChar] else [c]

/-- The escaped string `escape_shell_arg` builds (without the NUL). -/
def escape_shell_arg (s : List Char) : List Char :=
  quoteChar :: s.flatMap escapeCharExp ++ [quoteChar]

/-- Number of buffer bytes `escape_shell_arg` stores, including the
terminating NUL written at the end. -/
def escape_written_bytes (s : List Char) : Nat := (escape_shell_arg s).length + 1

/-- Number of bytes `escape_shell_arg` allocates: `2 * strlen + 3`. -/
def escape_alloc_bytes (s : List Char) : Nat := 2 * s.length + 3

/-! ## `cbz_open` / `cbz_get_image` (comic_loaders_cbz.c)

The zip archive is abstracted as its entry-name list in archive order,
plus flags for the fallible environment steps (`zip_open`, `mkdtemp`,
`malloc`, and the zip reads performed during extraction).  The
filesystem is abstracted as the set of files existing under the
temporary directory (a list of paths). -/

structure CbzEnv where
  zipOk : Bool
  mkdtempOk : Bool
  allocOk : Bool
  entries : List (List Char)

structure CbzHandle where
  temp_dir : List Char
  total_images : Nat
  entry_names : List (List Char)
deriving DecidableEq

/-- The zip entries that count as images: their filename component (the
part after the last separator) has a supported image extension. -/
def cbz_image_entries (entries : List (List Char)) : List (List Char) :=
  entries.filter fun n => is_image_file (get_filename_from_path n)

/-- The progress fractions emitted by the scan loop of `cbz_open`:
one report per entry index `i` with `i % 10 == 0`, at fraction
`0.2 + 0.7 * i / M`. -/
def cbz_scan_events (M : Nat) : List ℚ :=
  ((List.range M).filter fun i => i % 10 = 0).map
    fun (i : Nat) => 1 / 5 + 7 / 10 * (i : ℚ) / (M : ℚ)

/-- `cbz_open`: result handle (`none` on failure) and the reported
progress fractions.  The comparator used to sort the image entries is a
parameter (`image_name_compare` is linked in from either variant of
comic_loaders_utils.c). -/
def cbz_open (cmp : List Char → List Char → Int) (env : CbzEnv)
    (tempDir : List Char) : Option CbzHandle × List ℚ :=
  if ¬ env.zipOk then (none, [0])
  else if env.entries.length = 0 then (none, [0])
  else if ¬ env.mkdtempOk then (none, [0, 1 / 10])
  else if ¬ env.allocOk then (none, [0, 1 / 10, 1 / 5])
  else
    let scan := cbz_scan_events env.entries.length
    let images := cbz_image_entries env.entries
    if images.length = 0 then (none, 0 :: 1 / 10 :: 1 / 5 :: scan)
    else
      (some { temp_dir := tempDir
              total_images := images.length
              entry_names := qsortM (fun a b => cmp a b ≤ 0) images },
       0 :: 1 / 10 :: 1 / 5 :: scan ++ [1])

/-- The extraction target path `cbz_get_image` computes for an index:
`temp_dir ++ "/" ++ entry_name`. -/
def cbz_output_path (h : CbzHandle) (i : Nat) : List Char :=
  h.temp_dir ++ '/' :: h.entry_names.getD i []

/-- `cbz_get_image`: returns the extracted file's path (`none` on
failure), the new filesystem state, and whether an extraction was
performed.  If the output file already exists its path is returned
without re-extraction; otherwise the entry is extracted (succeeding when
`zipReadOk`). -/
def cbz_get_image (zipReadOk : Bool) (h : CbzHandle) (index : Int)
    (fs : List (List Char)) : Option (List Char) × List (List Char) × Bool :=
  if index < 0 ∨ (h.total_images : Int) ≤ index then (none, fs, false)
  else
    let p := cbz_output_path h index.toNat
    if p ∈ fs then (some p, fs, false)
    else if zipReadOk then (some p, p :: fs, true)
    else (none, fs, false)

/-! ## Progress traces of `cbr_open` and `pdf_open` -/

/-- The progress fractions of `cbr_open` (comic_loaders_cbr.c) and its
success flag.  `unrarOk` is whether the unrar tool is found, `popenOk`
whether listing the archive starts, `lines` the listed entry names.
Failure paths other than the missing tool end without a terminal call. -/
def cbr_open_events (unrarOk mkdtempOk popenOk allocOk : Bool)
    (lines : List (List Char)) : List ℚ × Bool :=
  if ¬ unrarOk then ([0, 1], false)
  else if ¬ mkdtempOk then ([0], false)
  else if ¬ popenOk then ([0, 1 / 10], false)
  else if ¬ allocOk then ([0, 1 / 10], false)
  else if (cbz_image_entries lines).length = 0 then ([0, 1 / 10], false)
  else ([0, 1 / 10, 4 / 5, 1], true)

/-- The progress fractions of `pdf_open` (comic_loaders_pdf.c) and its
success flag.  Every path, success or failure, ends with a single
terminal `1.0` report. -/
def pdf_open_events (mkdtempOk : Bool) (nPages : Int) (allocOk : Bool) :
    List ℚ × Bool :=
  if ¬ mkdtempOk then ([0, 1 / 10, 1], false)
  else if nPages ≤ 0 then ([0, 1 / 10, 1 / 5, 1], false)
  else if ¬ allocOk then ([0, 1 / 10, 1 / 5, 3 / 5, 1], false)
  else ([0, 1 / 10, 1 / 5, 3 / 5, 1], true)

/-! ## The view sequence and navigation engine (comic_viewer.c, SDL3 variant)

`ImageView` nodes form a doubly linked list.  Every pointer operation the
code performs keeps the `prev` pointers consistent with the `next`
pointers (each insertion/splice updates both sides), so the list is
modelled as a zipper: `left` is the chain of `prev` pointers from the
current node (nearest first), `right` the chain of `next` pointers.
`current_view_node == NULL` is `cur = none`.  The resident-image set
(`images[i].texture != NULL`) is the list `loaded`; image decoding is
assumed to succeed (`load_image`'s failure path only affects which images
end up resident, and no claim below depends on decode failures).
`float page_turn_progress` is modelled as an exact rational (0.05 steps
and the ≥ 1.0 threshold are preserved by IEEE float rounding).
Render-only fields (`last_page_change_time`, `show_progress_indicator`,
sizes, zoom) are omitted; no modelled operation reads them. -/

/-- `MAX_IMAGES_PER_VIEW` of the SDL3 variant's comic_viewer.h. -/
def MAX_IMAGES_PER_VIEW : Nat := 4

structure ImageView where
  image_indices : List Int
  count : Nat
deriving DecidableEq

/-- `create_view_node` (without the heap linkage, which the zipper
carries): one image per view, all index slots `-1`. -/
def create_view_node : ImageView :=
  { image_indices := List.replicate MAX_IMAGES_PER_VIEW (-1), count := 1 }

/-- The image indices a view displays: the first `count` slots. -/
def activeIndices (v : ImageView) : List Int := v.image_indices.take v.count

structure ViewerSt where
  left : List ImageView
  cur : Option ImageView
  right : List ImageView
  current_view_index : Int
  view_count : Int
  image_count : Nat
  loaded : List Int
  page_turning_in_progress : Bool
  page_turn_progress : ℚ
  target_view : Int
deriving DecidableEq

/-- The whole view list, from `first_view` following `next` pointers. -/
def allViews (st : ViewerSt) : List ImageView :=
  st.left.reverse ++ st.cur.toList ++ st.right

/-- `load_image`: in-range indices become resident (decode assumed to
succeed); already-resident indices are a no-op. -/
def load_image (idx : Int) (st : ViewerSt) : ViewerSt :=
  if idx < 0 ∨ (st.image_count : Int) ≤ idx then st
  else if idx ∈ st.loaded then st
  else { st with loaded := idx :: st.loaded }

/-- `unload_image`: destroys the texture of an in-range index. -/
def unload_image (idx : Int) (st : ViewerSt) : ViewerSt :=
  if idx < 0 ∨ (st.image_count : Int) ≤ idx then st
  else { st with loaded := st.loaded.filter fun j => j ≠ idx }

/-- `view_changed` (comic_viewer.c): unload the old view's images, load
the new view's images.  (The page-change timer it also resets is not
modelled.) -/
def view_changed (oldV newV : Option ImageView) (st : ViewerSt) : ViewerSt :=
  let st1 := match oldV with
    | none => st
    | some v => (activeIndices v).foldl (fun s i => unload_image i s) st
  match newV with
  | none => st1
  | some v => (activeIndices v).foldl (fun s i => load_image i s) st1

/-- `previous_view`: no-op when there is no current node, no `prev`
node, or a page-turn animation is in progress. -/
def previous_view (st : ViewerSt) : ViewerSt :=
  if st.page_turning_in_progress then st
  else
    match st.cur, st.left with
    | some c, p :: ls =>
      let st1 := { st with
        cur := some p
        left := ls
        right := c :: st.right
        current_view_index := st.current_view_index - 1 }
      view_changed (some c) (some p) st1
    | _, _ => st

/-- `next_view`: no-op when there is no current node, no `next` node, or
a page-turn animation is in progress. -/
def next_view (st : ViewerSt) : ViewerSt :=
  if st.page_turning_in_progress then st
  else
    match st.cur, st.right with
    | some c, n :: rs =>
      let st1 := { st with
        cur := some n
        left := c :: st.left
        right := rs
        current_view_index := st.current_view_index + 1 }
      view_changed (some c) (some n) st1
    | _, _ => st

/-- The default view for image `i`: one image per view. -/
def default_view (i : Nat) : ImageView :=
  { image_indices := [(i : Int), -1, -1, -1], count := 1 }

/-- `generate_default_views` for `n` images: `n` single-image views,
cursor on the first, `view_count` bumped once per `append_view`. -/
def generate_default_views (n : Nat) : ViewerSt :=
  { left := []
    cur := if n = 0 then none else some (default_view 0)
    right := (List.range' 1 (n - 1)).map default_view
    current_view_index := 0
    view_count := (n : Int)
    image_count := n
    loaded := []
    page_turning_in_progress := false
    page_turn_progress := 0
    target_view := 0 }

/-- `set_current_view`: `get_view_by_index` walks the list from
`first_view` (`NULL` for a negative or out-of-range index, in which case
nothing changes); on success both the node pointer and the integer index
are set. -/
def set_current_view (k : Int) (st : ViewerSt) : ViewerSt :=
  if k < 0 then st
  else
    let vs := allViews st
    match vs.drop k.toNat with
    | [] => st
    | v :: rest =>
      { st with
        left := (vs.take k.toNat).reverse
        cur := some v
        right := rest
        current_view_index := k }

/-- `load_images_for_view`: load every image of the view at a list
index; no-op when the index does not name a node. -/
def load_images_for_view (k : Int) (st : ViewerSt) : ViewerSt :=
  if k < 0 then st
  else
    match (allViews st).drop k.toNat with
    | [] => st
    | v :: _ => (activeIndices v).foldl (fun s i => load_image i s) st

/-- `unload_images_for_view`: unload every image of the view at a list
index; no-op when the index does not name a node. -/
def unload_images_for_view (k : Int) (st : ViewerSt) : ViewerSt :=
  if k < 0 then st
  else
    match (allViews st).drop k.toNat with
    | [] => st
    | v :: _ => (activeIndices v).foldl (fun s i => unload_image i s) st

/-- The `SDLK_1` handler (split, "make single"): when the current view
shows more than one image, shrink it to one image and insert a fresh
node after it holding the previously-second image index.  (With
`current_view_node == NULL` the C code would dereference a null pointer;
the model leaves the state unchanged and no claim is evaluated there.) -/
def make_single (st : ViewerSt) : ViewerSt :=
  match st.cur with
  | none => st
  | some c =>
    if c.count = 1 then st
    else
      let c1 := { c with count := 1 }
      let nn := { create_view_node with
                  image_indices := create_view_node.image_indices.set 0
                    (c.image_indices.getD 1 0) }
      { st with cur := some c1, right := nn :: st.right }

/-- The `SDLK_2` handler (merge, "make double"): when the current view
shows one image and a next view exists, pull the next view's first image
into slot 2 (loading it if not resident) and splice the next node out of
the list. -/
def make_double (st : ViewerSt) : ViewerSt :=
  match st.cur with
  | none => st
  | some c =>
    if c.count = 2 then st
    else
      match st.right with
      | [] => st
      | nv :: rest =>
        let idx1 := nv.image_indices.getD 0 0
        let c1 := { c with count := 2, image_indices := c.image_indices.set 1 idx1 }
        let st1 := load_image idx1 { st with cur := some c1 }
        { st1 with right := rest }

/-- The `SDLK_HOME` handler: when not already at view 0, unload views
`1 .. view_count-1`, move the cursor to view 0 and load it, preloading
the following view when `view_count > 1`. -/
def home_key (st : ViewerSt) : ViewerSt :=
  if st.current_view_index = 0 then st
  else
    let vc := st.view_count
    let idxs : List Int :=
      if vc ≤ 0 then [] else (List.range' 1 (vc.toNat - 1)).map fun j => (j : Int)
    let st1 := idxs.foldl (fun s i => unload_images_for_view i s) st
    let st2 := set_current_view 0 st1
    let st3 := load_images_for_view st2.current_view_index st2
    if 1 < vc then load_images_for_view (st3.current_view_index + 1) st3 else st3

/-- The `SDLK_END` handler: when not already at the last view, unload
views `0 .. view_count-2`, move the cursor to view `view_count-1` and
load it, preloading the preceding view when `view_count > 1`. -/
def end_key (st : ViewerSt) : ViewerSt :=
  let vc := st.view_count
  if st.current_view_index = vc - 1 then st
  else
    let idxs : List Int :=
      if vc ≤ 0 then [] else (List.range (vc.toNat - 1)).map fun j => (j : Int)
    let st1 := idxs.foldl (fun s i => unload_images_for_view i s) st
    let st2 := set_current_view (vc - 1) st1
    let st3 := load_images_for_view st2.current_view_index st2
    if 1 < vc then load_images_for_view (st3.current_view_index - 1) st3 else st3

/-- One frame of `render_current_view` while `page_turning_in_progress`
(comic_viewer.c lines 742–795): abort the animation if the involved
textures are missing; otherwise advance the progress by 0.05 and, once
it reaches 1.0, stop the animation and commit the cursor to
`target_view` via `set_current_view`.  (The code indexes `images[]` with
the current-view and target-view numbers; texture presence is membership
in `loaded`.) -/
def render_frame (st : ViewerSt) : ViewerSt :=
  if ¬ st.page_turning_in_progress then st
  else if ¬ (st.current_view_index ∈ st.loaded ∧ st.target_view ∈ st.loaded) then
    { st with page_turning_in_progress := false }
  else
    let p := st.page_turn_progress + 1 / 20
    let st1 := { st with page_turn_progress := p }
    if 1 ≤ p then
      set_current_view st.target_view { st1 with page_turning_in_progress := false }
    else st1

/-- Observable content of one view: how many images it shows and which. -/
def obsView (v : ImageView) : Nat × List Int := (v.count, activeIndices v)

/-- Observable content of the whole view sequence, in list order. -/
def obsSeq (st : ViewerSt) : List (Nat × List Int) := (allViews st).map obsView

/-- The cursor index recorded in the state agrees with the actual
position of the current node in the linked list. -/
def index_sync (st : ViewerSt) : Prop :=
  st.current_view_index = (st.left.length : Int)

/-- The recorded `view_count` agrees with the number of list nodes. -/
def count_sync (st : ViewerSt) : Prop :=
  st.view_count = ((allViews st).length : Int)

/-- The state with the default views for `n` images and the cursor moved
to view `i`, with an arbitrary resident set (navigation to `i` only
changes which images are resident). -/
def state_at_default (n i : Nat) (loaded : List Int) : ViewerSt :=
  { left := ((List.range i).map default_view).reverse
    cur := some (default_view i)
    right := (List.range' (i + 1) (n - (i + 1))).map default_view
    current_view_index := (i : Int)
    view_count := (n : Int)
    image_count := n
    loaded := loaded
    page_turning_in_progress := false
    page_turn_progress := 0
    target_view := 0 }

/-! ## Border auto-crop of `create_texture` (comic_viewer.c lines 1258–1448)

The decoded surface is abstracted as its dimensions and a pixel function
returning 8-bit RGB channels. -/

structure RGB where
  r : Nat
  g : Nat
  b : Nat
deriving DecidableEq

/-- Pixel access: `pix x y` is the colour at column `x`, row `y`. -/
def Pix : Type := Nat → Nat → RGB

/-- A pixel counts as non-white when the average of its channels is
below the threshold 240. -/
def nonWhite (c : RGB) : Bool := (c.r + c.g + c.b) / 3 < 240

/-- The sampled coordinates `0, 2, 4, … < n` (every 2nd pixel). -/
def sampleStride (n : Nat) : List Nat := (List.range ((n + 1) / 2)).map (2 * ·)

/-- The sampled coordinates `a, a+2, … ≤ b` of the row scans
(`for (x = left; x <= right; x += 2)`). -/
def sampleSpan (a b : Nat) : List Nat :=
  (List.range ((b - a) / 2 + 1)).map fun k => a + 2 * k

/-- A column stops the left/right border scan when at least 3 sampled
pixels are non-white (the C loop breaks out at the 3rd hit; counting all
hits and comparing with 3 is equivalent). -/
def colHasContent (pix : Pix) (h x : Nat) : Bool :=
  3 ≤ (sampleStride h).countP fun y => nonWhite (pix x y)

/-- A row stops the top/bottom border scan when at least 3 sampled
pixels within `[left, right]` are non-white. -/
def rowHasContent (pix : Pix) (l r y : Nat) : Bool :=
  3 ≤ (sampleSpan l r).countP fun x => nonWhite (pix x y)

/-- Left scan: first column in `[0, w/2)` with content, else `w/2`. -/
def crop_left (pix : Pix) (w h : Nat) : Nat :=
  (((List.range (w / 2)).find? (colHasContent pix h)).getD (w / 2))

/-- Right scan: from `w-1` downward while `right > left + 100`; the
first column with content, else the loop's final value. -/
def crop_right (pix : Pix) (w h l : Nat) : Nat :=
  if w - 1 ≤ l + 100 then w - 1
  else (((List.range' (l + 101) (w - 1 - (l + 100))).reverse.find?
    (colHasContent pix h)).getD (l + 100))

/-- Top scan: first row in `[0, h/2)` with content, else `h/2`. -/
def crop_top (pix : Pix) (h l r : Nat) : Nat :=
  (((List.range (h / 2)).find? (rowHasContent pix l r)).getD (h / 2))

/-- Bottom scan: from `h-1` upward while `bottom > top + 100`; the first
row with content, else the loop's final value. -/
def crop_bottom (pix : Pix) (h l r t : Nat) : Nat :=
  if h - 1 ≤ t + 100 then h - 1
  else (((List.range' (t + 101) (h - 1 - (t + 100))).reverse.find?
    (rowHasContent pix l r)).getD (t + 100))

structure CropRect where
  x : Int
  y : Int
  w : Int
  h : Int
deriving DecidableEq

/-- The crop rectangle `create_texture` stores: the four border scans,
then the degenerate-fallback to the full image bounds. -/
def create_texture_crop (pix : Pix) (w h : Nat) : CropRect :=
  let l := crop_left pix w h
  let r := crop_right pix w h l
  let t := crop_top pix h l r
  let b := crop_bottom pix h l r t
  let raw : CropRect := ⟨(l : Int), (t : Int), (r : Int) - l + 1, (b : Int) - t + 1⟩
  if raw.w ≤ 0 ∨ raw.h ≤ 0 then ⟨0, 0, (w : Int), (h : Int)⟩ else raw

/-! ## Dominant-colour extraction (comic_viewer.c lines 1056–1182) -/

/-- Near-black exclusion: every channel below 15. -/
def nearBlack (c : RGB) : Bool := c.r < 15 && c.g < 15 && c.b < 15

/-- Near-white exclusion: every channel above 240. -/
def nearWhite (c : RGB) : Bool := 240 < c.r && 240 < c.g && 240 < c.b

/-- 5-bit-per-channel bucket index `(r>>3)*32*32 + (g>>3)*32 + (b>>3)`. -/
def bucketIdx (c : RGB) : Nat :=
  (c.r >>> 3) * 1024 + (c.g >>> 3) * 32 + (c.b >>> 3)

/-- Histogram state: bucket frequencies plus the running maximum and its
bucket (the C code updates the maximum as it increments). -/
structure HistSt where
  freq : List (Nat × Nat)
  maxFreq : Nat
  domIdx : Nat
deriving DecidableEq

def histInit : HistSt := ⟨[], 0, 0⟩

/-- Increment the count of bucket `k` in the frequency table. -/
def histBump : List (Nat × Nat) → Nat → List (Nat × Nat)
  | [], k => [(k, 1)]
  | e :: t, k => if e.1 = k then (k, e.2 + 1) :: t else e :: histBump t k

/-- Look up the count of bucket `k` (0 when absent). -/
def histGet (f : List (Nat × Nat)) (k : Nat) : Nat :=
  ((f.find? fun e => e.1 = k).map Prod.snd).getD 0

/-- Process one contributing pixel: `color_freq[b]++` and the running
maximum update. -/
def histStep (st : HistSt) (k : Nat) : HistSt :=
  let f := histBump st.freq k
  let c := histGet f k
  if st.maxFreq < c then ⟨f, c, k⟩ else ⟨f, st.maxFreq, st.domIdx⟩

/-- The sampled coordinates `s, s+2, … < s + len` of the region scan. -/
def sampleFrom (s len : Nat) : List Nat :=
  (List.range ((len + 1) / 2)).map fun k => s + 2 * k

/-- The sample points of `get_dominant_color`'s double loop, row-major. -/
def gdcPoints (x y rw rh : Nat) : List (Nat × Nat) :=
  (sampleFrom y rh).flatMap fun j => (sampleFrom x rw).map fun i => (i, j)

/-- The histogram contribution of one sample point: skipped when outside
the surface or near-black / near-white, otherwise its bucket. -/
def gdcContrib (w h : Nat) (pix : Pix) (p : Nat × Nat) : Option Nat :=
  if w ≤ p.1 ∨ h ≤ p.2 then none
  else
    let c := pix p.1 p.2
    if nearBlack c || nearWhite c then none else some (bucketIdx c)

/-- The histogram left after scanning all sample points. -/
def gdcFold (w h : Nat) (pix : Pix) (pts : List (Nat × Nat)) : HistSt :=
  pts.foldl
    (fun st p => match gdcContrib w h pix p with
      | none => st
      | some k => histStep st k)
    histInit

/-- Reconstruct an 8-bit channel from its 5-bit bucket value:
`(v << 3) | (v >> 2)`. -/
def unbucket (v : Nat) : Nat := (v <<< 3) ||| (v >>> 2)

/-- `get_dominant_color`: black when the histogram buffer cannot be
allocated or no pixel contributed; otherwise the requantized colour of
the most frequent bucket. -/
def get_dominant_color (allocOk : Bool) (w h : Nat) (pix : Pix)
    (x y rw rh : Nat) : RGB :=
  if ¬ allocOk then ⟨0, 0, 0⟩
  else
    let st := gdcFold w h pix (gdcPoints x y rw rh)
    if 0 < st.maxFreq then
      ⟨unbucket ((st.domIdx / 1024) % 32), unbucket ((st.domIdx / 32) % 32),
        unbucket (st.domIdx % 32)⟩
    else ⟨0, 0, 0⟩

/-- The left-edge strip width of `analyze_image_left_edge`: 8% of the
image width (`(int)(width * 0.08)`, modelled exactly as `8*w/100`; the
double rounding of `0.08` never moves the truncation across an integer
for any realistic width), clamped to `[1, width]`. -/
def edge_width (w : Nat) : Nat := min w (max 1 (8 * w / 100))

/-- `analyze_image_left_edge`: dominant colour of the left 8% strip. -/
def analyze_image_left_edge (allocOk : Bool) (w h : Nat) (pix : Pix) : RGB :=
  get_dominant_color allocOk w h pix 0 0 (edge_width w) h

/-! ## Helper lemmas -/

theorem insertSorted_perm (le : α → α → Bool) (a : α) (l : List α) :
    (insertSorted le a l).Perm (a :: l) := by
  induction l with
  | nil => simp [insertSorted]
  | cons b t ih =>
    unfold insertSorted
    by_cases h : le a b
    · simp [h]
    · simp only [h]
      exact ((ih.cons b).trans (List.Perm.swap a b t)).symm.symm

theorem qsortM_perm (le : α → α → Bool) (l : List α) : (qsortM le l).Perm l := by
  induction l with
  | nil => simp [qsortM]
  | cons a t ih =>
    have : qsortM le (a :: t) = insertSorted le a (qsortM le t) := rfl
    rw [this]
    exact (insertSorted_perm le a (qsortM le t)).trans (ih.cons a)

theorem qsortM_length (le : α → α → Bool) (l : List α) :
    (qsortM le l).length = l.length :=
  (qsortM_perm le l).length_eq

theorem escape_flat_length (s : List Char) :
    (s.flatMap escapeCharExp).length = s.length + 3 * s.count quoteChar := by
  induction s with
  | nil => simp
  | cons c t ih =>
    by_cases h : c = quoteChar <;>
      simp [escapeCharExp, h, ih, List.count_cons] <;> omega

/-! ## Claim theorems -/

/-- C10: for an input of length `len` containing `q` single quotes,
`escape_shell_arg` fills `3 + len + 3*q` buffer bytes (the enclosing
quotes, each input character — four characters for a quote — and the
terminating NUL) while allocating only `2*len + 3` bytes; for the
one-character input `'` it stores 7 bytes in a 5-byte buffer. -/
theorem escape_shell_arg_overflow :
    (∀ s : List Char,
      escape_written_bytes s = 3 + s.length + 3 * s.count quoteChar) ∧
    escape_written_bytes [quoteChar] = 7 ∧ escape_alloc_bytes [quoteChar] = 5 ∧
    escape_alloc_bytes [quoteChar] < escape_written_bytes [quoteChar] := by
  refine ⟨fun s => ?_, by decide, by decide, by decide⟩
  have h := escape_flat_length s
  simp only [escape_written_bytes, escape_shell_arg, List.length_cons,
    List.length_append, List.length_singleton, List.length_nil, h]
  omega

/-- C2: `previous_view` with no `prev` node (cursor on the first view)
and `next_view` with no `next` node (cursor on the last view) leave the
entire viewer state — cursor node, cursor index, and the resident-image
set — unchanged. -/
theorem nav_boundary_noop (st : ViewerSt) :
    (st.left = [] → previous_view st = st) ∧
    (st.right = [] → next_view st = st) := by
  constructor <;> intro h <;>
    simp only [previous_view, next_view, h] <;>
    by_cases hp : st.page_turning_in_progress <;>
    simp [hp]

/-- Witness for C2 at a concrete one-view state. -/
theorem nav_boundary_noop_witness :
    previous_view (generate_default_views 1) = generate_default_views 1 ∧
    next_view (generate_default_views 1) = generate_default_views 1 :=
  ⟨(nav_boundary_noop _).1 (by decide), (nav_boundary_noop _).2 (by decide)⟩

/-- C1 counterexample: with the `strcmp`-based `image_name_compare`
variant that `load_directory` links against, the comparator puts
"img2.png" after "img10.png" (byte-wise, '1' < '2'), so a directory
holding exactly img2.png and img10.png is returned in lexicographic, not
natural, order — refuting the claim for that variant. -/
theorem load_directory_strcmp_lexicographic :
    load_directory_entries image_name_compare_strcmp "d".toList
        [("img2.png".toList, true), ("img10.png".toList, true)] 1000
      = ["d/img10.png".toList, "d/img2.png".toList] ∧
    0 < image_name_compare_strcmp "img2.png".toList "img10.png".toList := by
  exact ⟨by decide, by decide⟩

/-- C1 (amended): `load_directory` returns every image file found (a
permutation of the filtered listing, all `N` of them when `N` fits the
entry budget) ordered by `image_name_compare`; with the
`strverscmp`-based variant this order is natural/version-aware, so
"img2.png" precedes "img10.png", and `cbz_open` orders archive entries
with the same comparator (shown on a concrete archive). -/
theorem load_directory_natural_sort :
    (∀ (cmp : List Char → List Char → Int) (dirPath : List Char)
        (listing : List (List Char × Bool)) (maxImages : Nat),
      (load_directory_entries cmp dirPath listing maxImages).Perm
        (load_directory_found dirPath listing maxImages) ∧
      ((listing.filter fun e => e.2 && is_image_file e.1).length ≤ maxImages →
        (load_directory_entries cmp dirPath listing maxImages).length
          = (listing.filter fun e => e.2 && is_image_file e.1).length)) ∧
    image_name_compare_natural "img2.png".toList "img10.png".toList < 0 ∧
    load_directory_entries image_name_compare_natural "d".toList
        [("img10.png".toList, true), ("img2.png".toList, true)] 1000
      = ["d/img2.png".toList, "d/img10.png".toList] ∧
    (cbz_open image_name_compare_natural
        ⟨true, true, true, ["img10.png".toList, "img2.png".toList]⟩ "t".toList).1
      = some ⟨"t".toList, 2, ["img2.png".toList, "img10.png".toList]⟩ := by
  refine ⟨fun cmp dirPath listing maxImages => ⟨qsortM_perm _ _, fun hle => ?_⟩,
    by decide, by decide, by decide⟩
  simp [load_directory_entries, qsortM_length, load_directory_found,
    List.length_take, List.length_map, hle]

/-- Witness for C1's amended theorem at a concrete two-file directory. -/
theorem load_directory_natural_sort_witness :
    (load_directory_entries image_name_compare_natural "d".toList
        [("img10.png".toList, true), ("img2.png".toList, true)] 1000).length = 2 :=
  ((load_directory_natural_sort.1 image_name_compare_natural "d".toList
    [("img10.png".toList, true), ("img2.png".toList, true)] 1000).2
      (by decide)).trans (by decide)

/-! ### Structural lemmas: operations that only touch the resident set -/

theorem load_image_loadedOnly (idx : Int) (st : ViewerSt) :
    ∃ L, load_image idx st = { st with loaded := L } := by
  unfold load_image
  split_ifs <;> exact ⟨_, rfl⟩

theorem unload_image_loadedOnly (idx : Int) (st : ViewerSt) :
    ∃ L, unload_image idx st = { st with loaded := L } := by
  unfold unload_image
  split_ifs <;> exact ⟨_, rfl⟩

theorem foldl_loadedOnly {α : Type} (f : α → ViewerSt → ViewerSt)
    (hf : ∀ a st, ∃ L, f a st = { st with loaded := L }) (l : List α) :
    ∀ st : ViewerSt, ∃ L, l.foldl (fun s a => f a s) st = { st with loaded := L } := by
  induction l with
  | nil => intro st; exact ⟨st.loaded, rfl⟩
  | cons a t ih =>
    intro st
    obtain ⟨L1, h1⟩ := hf a st
    obtain ⟨L2, h2⟩ := ih (f a st)
    refine ⟨L2, ?_⟩
    calc (a :: t).foldl (fun s a => f a s) st
        = t.foldl (fun s a => f a s) (f a st) := rfl
      _ = { f a st with loaded := L2 } := h2
      _ = { st with loaded := L2 } := by rw [h1]

theorem view_changed_loadedOnly (o n : Option ImageView) (st : ViewerSt) :
    ∃ L, view_changed o n st = { st with loaded := L } := by
  unfold view_changed
  cases o with
  | none =>
    cases n with
    | none => exact ⟨st.loaded, rfl⟩
    | some v => exact foldl_loadedOnly _ load_image_loadedOnly _ st
  | some v =>
    cases n with
    | none => exact foldl_loadedOnly _ unload_image_loadedOnly _ st
    | some v2 =>
      dsimp only
      obtain ⟨L1, h1⟩ := foldl_loadedOnly _ unload_image_loadedOnly (activeIndices v) st
      rw [h1]
      obtain ⟨L2, h2⟩ := foldl_loadedOnly _ load_image_loadedOnly (activeIndices v2)
        { st with loaded := L1 }
      rw [h2]
      exact ⟨L2, rfl⟩

theorem load_images_for_view_loadedOnly (k : Int) (st : ViewerSt) :
    ∃ L, load_images_for_view k st = { st with loaded := L } := by
  unfold load_images_for_view
  split_ifs
  · exact ⟨st.loaded, rfl⟩
  · cases hd : (allViews st).drop k.toNat with
    | nil => simp only [hd]; exact ⟨st.loaded, rfl⟩
    | cons v rest =>
      simp only [hd]
      exact foldl_loadedOnly _ load_image_loadedOnly _ st

theorem unload_images_for_view_loadedOnly (k : Int) (st : ViewerSt) :
    ∃ L, unload_images_for_view k st = { st with loaded := L } := by
  unfold unload_images_for_view
  split_ifs
  · exact ⟨st.loaded, rfl⟩
  · cases hd : (allViews st).drop k.toNat with
    | nil => simp only [hd]; exact ⟨st.loaded, rfl⟩
    | cons v rest =>
      simp only [hd]
      exact foldl_loadedOnly _ unload_image_loadedOnly _ st

/-! ### `set_current_view` lemmas -/

theorem set_current_view_allViews (k : Int) (st : ViewerSt) :
    allViews (set_current_view k st) = allViews st := by
  unfold set_current_view
  split_ifs with hk
  · rfl
  · cases hd : (allViews st).drop k.toNat with
    | nil => simp only [hd]
    | cons v rest =>
      simp only [hd]
      show ((allViews st).take k.toNat).reverse.reverse ++ [v] ++ rest = allViews st
      rw [List.reverse_reverse]
      conv_rhs => rw [← List.take_append_drop k.toNat (allViews st), hd]
      simp

theorem set_current_view_stable (k : Int) (st : ViewerSt) :
    (set_current_view k st).view_count = st.view_count ∧
    (set_current_view k st).loaded = st.loaded ∧
    (set_current_view k st).page_turning_in_progress = st.page_turning_in_progress ∧
    (set_current_view k st).page_turn_progress = st.page_turn_progress ∧
    (set_current_view k st).image_count = st.image_count ∧
    (set_current_view k st).target_view = st.target_view := by
  unfold set_current_view
  split_ifs
  · exact ⟨rfl, rfl, rfl, rfl, rfl, rfl⟩
  · cases hd : (allViews st).drop k.toNat with
    | nil => simp [hd]
    | cons v rest => simp [hd]

theorem set_current_view_committed (k : Int) (st : ViewerSt) (h0 : ¬ k < 0)
    (h1 : k.toNat < (allViews st).length) :
    (set_current_view k st).current_view_index = k ∧
    (set_current_view k st).left.length = k.toNat := by
  unfold set_current_view
  rw [if_neg h0]
  cases hd : (allViews st).drop k.toNat with
  | nil =>
    exfalso
    have := List.drop_eq_nil_iff.mp hd
    omega
  | cons v rest =>
    simp only [hd]
    refine ⟨by trivial, ?_⟩
    simp [List.length_take]
    omega

theorem set_current_view_index_sync (k : Int) (st : ViewerSt) (h : index_sync st) :
    index_sync (set_current_view k st) := by
  by_cases h0 : k < 0
  · unfold set_current_view; rw [if_pos h0]; exact h
  · by_cases h1 : k.toNat < (allViews st).length
    · obtain ⟨hi, hl⟩ := set_current_view_committed k st h0 h1
      unfold index_sync
      rw [hi, hl]
      omega
    · unfold set_current_view
      rw [if_neg h0]
      have hd : (allViews st).drop k.toNat = [] := List.drop_eq_nil_iff.mpr (by omega)
      simp only [hd]
      exact h

/-! ### Claim theorems for the view sequence -/

/-- Reduction of `make_double` on an explicit state whose current view
has `count ≠ 2` and whose `next` node exists. -/
theorem make_double_shape (le : List ImageView) (c nv : ImageView)
    (rest : List ImageView) (ci vc : Int) (ic : Nat) (ld : List Int)
    (pt : Bool) (pp : ℚ) (tv : Int) (hcnt : ¬ c.count = 2) :
    ∃ L, make_double ⟨le, some c, nv :: rest, ci, vc, ic, ld, pt, pp, tv⟩
      = ⟨le, some { c with
            count := 2
            image_indices := c.image_indices.set 1 (nv.image_indices.getD 0 0) },
          rest, ci, vc, ic, L, pt, pp, tv⟩ := by
  unfold make_double
  dsimp only
  rw [if_neg hcnt]
  obtain ⟨L, hL⟩ := load_image_loadedOnly (nv.image_indices.getD 0 0)
    ⟨le, some { c with
      count := 2
      image_indices := c.image_indices.set 1 (nv.image_indices.getD 0 0) },
      nv :: rest, ci, vc, ic, ld, pt, pp, tv⟩
  rw [hL]
  exact ⟨L, rfl⟩

/-- Reduction of `make_single` on an explicit state whose current view
has `count ≠ 1`. -/
theorem make_single_shape (le : List ImageView) (c : ImageView)
    (rt : List ImageView) (ci vc : Int) (ic : Nat) (ld : List Int)
    (pt : Bool) (pp : ℚ) (tv : Int) (hcnt : ¬ c.count = 1) :
    make_single ⟨le, some c, rt, ci, vc, ic, ld, pt, pp, tv⟩
      = ⟨le, some { c with count := 1 },
          { create_view_node with
            image_indices := create_view_node.image_indices.set 0
              (c.image_indices.getD 1 0) } :: rt,
          ci, vc, ic, ld, pt, pp, tv⟩ := by
  unfold make_single
  dsimp only
  rw [if_neg hcnt]

/-- C3: starting from the default single-image views with the cursor on
view `i` (any resident set), merging (`SDLK_2`) and then splitting
(`SDLK_1`) restores the original sequence: every view again shows one
image, the two affected views hold the original two page indices in the
original order, and the prev/next structure (the node sequence and the
cursor position) is as before. -/
theorem merge_split_roundtrip (n i : Nat) (loaded : List Int) (h : i + 1 < n) :
    obsSeq (make_single (make_double (state_at_default n i loaded))) =
      obsSeq (state_at_default n i loaded) ∧
    (make_single (make_double (state_at_default n i loaded))).left =
      (state_at_default n i loaded).left ∧
    (make_single (make_double (state_at_default n i loaded))).current_view_index =
      (state_at_default n i loaded).current_view_index := by
  obtain ⟨m, hm⟩ : ∃ m, n - (i + 1) = m + 1 := ⟨n - (i + 1) - 1, by omega⟩
  have hst : state_at_default n i loaded
      = ⟨((List.range i).map default_view).reverse, some (default_view i),
          default_view (i + 1) :: (List.range' (i + 2) m).map default_view,
          (i : Int), (n : Int), n, loaded, false, 0, 0⟩ := by
    unfold state_at_default
    rw [hm, List.range'_succ, List.map_cons]
  rw [hst]
  obtain ⟨L, hmd⟩ := make_double_shape
    (((List.range i).map default_view).reverse) (default_view i) (default_view (i + 1))
    ((List.range' (i + 2) m).map default_view) (i : Int) (n : Int) n loaded false 0 0
    (by simp [default_view])
  rw [hmd]
  rw [make_single_shape _ _ _ _ _ _ _ _ _ _ (by simp [default_view])]
  refine ⟨?_, rfl, rfl⟩
  simp [obsSeq, allViews, obsView, activeIndices,
    default_view, create_view_node, MAX_IMAGES_PER_VIEW]

/-- Witness for C3 at a concrete 3-view state. -/
theorem merge_split_roundtrip_witness :
    obsSeq (make_single (make_double (state_at_default 3 0 []))) =
      obsSeq (state_at_default 3 0 []) :=
  (merge_split_roundtrip 3 0 [] (by decide)).1

/-- C4 counterexample: after a merge (`SDLK_2`) on the default two-view
sequence the linked list has one node but `view_count` still reads 2 —
the handler never updates `view_count`, refuting the invariant as
stated. -/
theorem view_count_desync_after_merge :
    (make_double (generate_default_views 2)).view_count = 2 ∧
    (allViews (make_double (generate_default_views 2))).length = 1 ∧
    (make_double (generate_default_views 2)).view_count ≠
      ((allViews (make_double (generate_default_views 2))).length : Int) := by
  exact ⟨by decide, by decide, by decide⟩

theorem next_view_sync (st : ViewerSt) (hi : index_sync st) (hc : count_sync st) :
    index_sync (next_view st) ∧ count_sync (next_view st) := by
  obtain ⟨le, cur, rt, ci, vc, ic, ld, pt, pp, tv⟩ := st
  unfold next_view
  cases pt
  · cases cur with
    | none => exact ⟨hi, hc⟩
    | some c =>
      cases rt with
      | nil => exact ⟨hi, hc⟩
      | cons nv rs =>
        dsimp only
        obtain ⟨L, hL⟩ := view_changed_loadedOnly (some c) (some nv)
          ⟨c :: le, some nv, rs, ci + 1, vc, ic, ld, false, pp, tv⟩
        rw [hL]
        constructor
        · unfold index_sync at hi ⊢
          simp at hi ⊢
          omega
        · unfold count_sync allViews at hc ⊢
          simp at hc ⊢
          omega
  · exact ⟨hi, hc⟩

theorem previous_view_sync (st : ViewerSt) (hi : index_sync st) (hc : count_sync st) :
    index_sync (previous_view st) ∧ count_sync (previous_view st) := by
  obtain ⟨le, cur, rt, ci, vc, ic, ld, pt, pp, tv⟩ := st
  unfold previous_view
  cases pt
  · cases cur with
    | none => exact ⟨hi, hc⟩
    | some c =>
      cases le with
      | nil => exact ⟨hi, hc⟩
      | cons pv ls =>
        dsimp only
        obtain ⟨L, hL⟩ := view_changed_loadedOnly (some c) (some pv)
          ⟨ls, some pv, c :: rt, ci - 1, vc, ic, ld, false, pp, tv⟩
        rw [hL]
        constructor
        · unfold index_sync at hi ⊢
          simp at hi ⊢
          omega
        · unfold count_sync allViews at hc ⊢
          simp at hc ⊢
          omega
  · exact ⟨hi, hc⟩

theorem home_key_sync (st : ViewerSt) (hi : index_sync st) (hc : count_sync st) :
    index_sync (home_key st) ∧ count_sync (home_key st) := by
  by_cases hg : st.current_view_index = 0
  · unfold home_key
    rw [if_pos hg]
    exact ⟨hi, hc⟩
  · unfold home_key
    rw [if_neg hg]
    dsimp only
    obtain ⟨L1, h1⟩ := foldl_loadedOnly unload_images_for_view
      unload_images_for_view_loadedOnly
      (if st.view_count ≤ 0 then []
        else (List.range' 1 (st.view_count.toNat - 1)).map fun j => (j : Int)) st
    rw [h1]
    obtain ⟨L2, h2⟩ := load_images_for_view_loadedOnly
      ((set_current_view 0 { st with loaded := L1 }).current_view_index)
      (set_current_view 0 { st with loaded := L1 })
    rw [h2]
    have hi1 : index_sync (set_current_view 0 { st with loaded := L1 }) :=
      set_current_view_index_sync 0 _ hi
    have hc1 : count_sync (set_current_view 0 { st with loaded := L1 }) := by
      unfold count_sync
      rw [set_current_view_allViews, (set_current_view_stable 0 _).1]
      exact hc
    by_cases h3 : 1 < st.view_count
    · rw [if_pos h3]
      obtain ⟨L3, h4⟩ := load_images_for_view_loadedOnly
        (({ set_current_view 0 { st with loaded := L1 } with
            loaded := L2 }).current_view_index + 1)
        { set_current_view 0 { st with loaded := L1 } with loaded := L2 }
      rw [h4]
      exact ⟨hi1, hc1⟩
    · rw [if_neg h3]
      exact ⟨hi1, hc1⟩

theorem end_key_sync (st : ViewerSt) (hi : index_sync st) (hc : count_sync st) :
    index_sync (end_key st) ∧ count_sync (end_key st) := by
  unfold end_key
  dsimp only
  by_cases hg : st.current_view_index = st.view_count - 1
  · rw [if_pos hg]
    exact ⟨hi, hc⟩
  · rw [if_neg hg]
    obtain ⟨L1, h1⟩ := foldl_loadedOnly unload_images_for_view
      unload_images_for_view_loadedOnly
      (if st.view_count ≤ 0 then []
        else (List.range (st.view_count.toNat - 1)).map fun j => (j : Int)) st
    rw [h1]
    obtain ⟨L2, h2⟩ := load_images_for_view_loadedOnly
      ((set_current_view (st.view_count - 1) { st with loaded := L1 }).current_view_index)
      (set_current_view (st.view_count - 1) { st with loaded := L1 })
    rw [h2]
    have hi1 : index_sync (set_current_view (st.view_count - 1) { st with loaded := L1 }) :=
      set_current_view_index_sync _ _ hi
    have hc1 : count_sync (set_current_view (st.view_count - 1) { st with loaded := L1 }) := by
      unfold count_sync
      rw [set_current_view_allViews, (set_current_view_stable _ _).1]
      exact hc
    by_cases h3 : 1 < st.view_count
    · rw [if_pos h3]
      obtain ⟨L3, h4⟩ := load_images_for_view_loadedOnly
        (({ set_current_view (st.view_count - 1) { st with loaded := L1 } with
            loaded := L2 }).current_view_index - 1)
        { set_current_view (st.view_count - 1) { st with loaded := L1 } with loaded := L2 }
      rw [h4]
      exact ⟨hi1, hc1⟩
    · rw [if_neg h3]
      exact ⟨hi1, hc1⟩

theorem make_single_index_sync (st : ViewerSt) (hi : index_sync st) :
    index_sync (make_single st) := by
  obtain ⟨le, cur, rt, ci, vc, ic, ld, pt, pp, tv⟩ := st
  unfold make_single
  cases cur with
  | none => exact hi
  | some c =>
    dsimp only
    split_ifs
    · exact hi
    · exact hi

theorem make_double_index_sync (st : ViewerSt) (hi : index_sync st) :
    index_sync (make_double st) := by
  obtain ⟨le, cur, rt, ci, vc, ic, ld, pt, pp, tv⟩ := st
  cases cur with
  | none => exact hi
  | some c =>
    by_cases h2 : c.count = 2
    · unfold make_double
      dsimp only
      rw [if_pos h2]
      exact hi
    · cases rt with
      | nil =>
        unfold make_double
        dsimp only
        rw [if_neg h2]
        exact hi
      | cons nv rs =>
        obtain ⟨L, hmd⟩ := make_double_shape le c nv rs ci vc ic ld pt pp tv h2
        rw [hmd]
        exact hi

/-- C4 (amended): the integer cursor index stays equal to the current
node's position in the list across navigation, goto first/last, split
and merge; `view_count` stays equal to the number of list nodes across
navigation and goto first/last — but split and merge change the node
count without updating `view_count` (see the counterexample), so the
count half of the invariant holds only for the non-restructuring
operations. -/
theorem cursor_index_sync_amended (st : ViewerSt)
    (hi : index_sync st) (hc : count_sync st) :
    (index_sync (next_view st) ∧ index_sync (previous_view st) ∧
     index_sync (home_key st) ∧ index_sync (end_key st) ∧
     index_sync (make_single st) ∧ index_sync (make_double st)) ∧
    (count_sync (next_view st) ∧ count_sync (previous_view st) ∧
     count_sync (home_key st) ∧ count_sync (end_key st)) :=
  ⟨⟨(next_view_sync st hi hc).1, (previous_view_sync st hi hc).1,
    (home_key_sync st hi hc).1, (end_key_sync st hi hc).1,
    make_single_index_sync st hi, make_double_index_sync st hi⟩,
   ⟨(next_view_sync st hi hc).2, (previous_view_sync st hi hc).2,
    (home_key_sync st hi hc).2, (end_key_sync st hi hc).2⟩⟩

/-- Witness for C4's amended theorem at the default 3-view state. -/
theorem cursor_index_sync_amended_witness :
    index_sync (next_view (generate_default_views 3)) ∧
    count_sync (next_view (generate_default_views 3)) :=
  ⟨((cursor_index_sync_amended (generate_default_views 3)
      (by unfold index_sync; decide) (by unfold count_sync; decide)).1).1,
   ((cursor_index_sync_amended (generate_default_views 3)
      (by unfold index_sync; decide) (by unfold count_sync; decide)).2).1⟩

/-- C5: when the archive opens (zip readable, temp dir and allocation
succeed) with `K` image entries among its entries, `cbz_open` reports
`total_images = K`, and for every `i < K` the first `cbz_get_image`
returns a path while a second call with the same index returns the same
path, leaves the extracted-file set unchanged and performs no
extraction. -/
theorem cbz_open_get_image_spec (cmp : List Char → List Char → Int) (env : CbzEnv)
    (tempDir : List Char) (i : Nat) (fs : List (List Char))
    (hzip : env.zipOk = true) (hmk : env.mkdtempOk = true) (hal : env.allocOk = true)
    (hi : i < (cbz_image_entries env.entries).length) :
    ∃ h : CbzHandle, (cbz_open cmp env tempDir).1 = some h ∧
      h.total_images = (cbz_image_entries env.entries).length ∧
      ∃ p : List Char,
        (cbz_get_image true h (i : Int) fs).1 = some p ∧
        (cbz_get_image true h (i : Int) ((cbz_get_image true h (i : Int) fs).2.1)).1
          = some p ∧
        (cbz_get_image true h (i : Int) ((cbz_get_image true h (i : Int) fs).2.1)).2.1
          = (cbz_get_image true h (i : Int) fs).2.1 ∧
        (cbz_get_image true h (i : Int) ((cbz_get_image true h (i : Int) fs).2.1)).2.2
          = false := by
  have hM : ¬ env.entries.length = 0 := by
    have hle : (cbz_image_entries env.entries).length ≤ env.entries.length :=
      List.length_filter_le _ _
    omega
  have hK : ¬ (cbz_image_entries env.entries).length = 0 := by omega
  refine ⟨{ temp_dir := tempDir
            total_images := (cbz_image_entries env.entries).length
            entry_names := qsortM (fun a b => cmp a b ≤ 0) (cbz_image_entries env.entries) },
    ?_, rfl, ?_⟩
  · unfold cbz_open
    simp [hzip, hmk, hal, hM, hK]
  · have hguard : ¬ ((i : Int) < 0 ∨ (((cbz_image_entries env.entries).length : Nat) : Int) ≤ (i : Int)) := by
      push_neg
      constructor
      · positivity
      · exact_mod_cast hi
    unfold cbz_get_image
    rw [if_neg hguard]
    by_cases hmem : cbz_output_path
        { temp_dir := tempDir
          total_images := (cbz_image_entries env.entries).length
          entry_names := qsortM (fun a b => cmp a b ≤ 0) (cbz_image_entries env.entries) }
        (i : Int).toNat ∈ fs
    · rw [if_pos hmem]
      refine ⟨_, rfl, ?_⟩
      rw [if_neg hguard]
      rw [if_pos hmem]
      exact ⟨rfl, rfl, rfl⟩
    · rw [if_neg hmem]
      refine ⟨_, rfl, ?_⟩
      rw [if_neg hguard]
      simp

/-- Witness for C5 at a concrete three-entry archive (two images). -/
theorem cbz_open_get_image_spec_witness :
    ∃ h : CbzHandle,
      (cbz_open image_name_compare_natural
        ⟨true, true, true, ["b.jpg".toList, "t.txt".toList, "a.png".toList]⟩
        "t".toList).1 = some h ∧
      h.total_images = (cbz_image_entries
        ["b.jpg".toList, "t.txt".toList, "a.png".toList]).length ∧
      ∃ p : List Char,
        (cbz_get_image true h ((0 : Nat) : Int) []).1 = some p ∧
        (cbz_get_image true h ((0 : Nat) : Int)
          ((cbz_get_image true h ((0 : Nat) : Int) []).2.1)).1 = some p ∧
        (cbz_get_image true h ((0 : Nat) : Int)
          ((cbz_get_image true h ((0 : Nat) : Int) []).2.1)).2.1
          = (cbz_get_image true h ((0 : Nat) : Int) []).2.1 ∧
        (cbz_get_image true h ((0 : Nat) : Int)
          ((cbz_get_image true h ((0 : Nat) : Int) []).2.1)).2.2 = false :=
  cbz_open_get_image_spec image_name_compare_natural
    ⟨true, true, true, ["b.jpg".toList, "t.txt".toList, "a.png".toList]⟩
    "t".toList 0 [] rfl rfl rfl (by decide)

/-- C8: while a page-turn animation is in progress, `next_view` and
`previous_view` are rejected (the state is unchanged); a rendered frame
with both involved textures resident advances the progress by exactly
0.05, and when the new progress reaches 1.0 the animation stops and the
cursor is committed to `target_view` (when that names a list node),
while below 1.0 the animation continues with the cursor untouched. -/
theorem page_turn_state_machine (st : ViewerSt)
    (hp : st.page_turning_in_progress = true) :
    next_view st = st ∧ previous_view st = st ∧
    (st.current_view_index ∈ st.loaded → st.target_view ∈ st.loaded →
      (render_frame st).page_turn_progress = st.page_turn_progress + 1 / 20 ∧
      (1 ≤ st.page_turn_progress + 1 / 20 →
        (render_frame st).page_turning_in_progress = false ∧
        (¬ st.target_view < 0 → st.target_view.toNat < (allViews st).length →
          (render_frame st).current_view_index = st.target_view)) ∧
      (st.page_turn_progress + 1 / 20 < 1 →
        (render_frame st).page_turning_in_progress = true ∧
        (render_frame st).current_view_index = st.current_view_index ∧
        (render_frame st).cur = st.cur ∧
        (render_frame st).loaded = st.loaded)) := by
  refine ⟨by simp [next_view, hp], by simp [previous_view, hp], fun h1 h2 => ?_⟩
  by_cases hge : 1 ≤ st.page_turn_progress + 1 / 20
  · have hrf : render_frame st = set_current_view st.target_view
        { st with
          page_turn_progress := st.page_turn_progress + 1 / 20
          page_turning_in_progress := false } := by
      unfold render_frame
      rw [if_neg (by simp [hp]), if_neg (not_not_intro ⟨h1, h2⟩)]
      dsimp only
      rw [if_pos hge]
    rw [hrf]
    refine ⟨((set_current_view_stable _ _).2.2.2.1), fun _ => ⟨?_, fun h0 hlen => ?_⟩,
      fun hlt => absurd hge (not_le.mpr hlt)⟩
    · exact (set_current_view_stable _ _).2.2.1
    · exact (set_current_view_committed st.target_view
        { st with
          page_turn_progress := st.page_turn_progress + 1 / 20
          page_turning_in_progress := false } h0 hlen).1
  · have hrf : render_frame st
        = { st with page_turn_progress := st.page_turn_progress + 1 / 20 } := by
      unfold render_frame
      rw [if_neg (by simp [hp]), if_neg (not_not_intro ⟨h1, h2⟩)]
      dsimp only
      rw [if_neg hge]
    rw [hrf]
    exact ⟨rfl, fun hge2 => absurd hge2 hge, fun _ => ⟨hp, rfl, rfl, rfl⟩⟩

/-- Witness for C8 at a concrete mid-animation state that commits on the
next frame. -/
theorem page_turn_state_machine_witness :
    (render_frame ⟨[default_view 0], some (default_view 1), [], 1, 2, 2, [0, 1],
      true, 19 / 20, 0⟩).page_turn_progress = 19 / 20 + 1 / 20 ∧
    (render_frame ⟨[default_view 0], some (default_view 1), [], 1, 2, 2, [0, 1],
      true, 19 / 20, 0⟩).page_turning_in_progress = false ∧
    (render_frame ⟨[default_view 0], some (default_view 1), [], 1, 2, 2, [0, 1],
      true, 19 / 20, 0⟩).current_view_index = 0 :=
  ⟨((page_turn_state_machine _ rfl).2.2 (by decide) (by decide)).1,
   (((page_turn_state_machine _ rfl).2.2 (by decide) (by decide)).2.1
     (by norm_num)).1,
   (((page_turn_state_machine _ rfl).2.2 (by decide) (by decide)).2.1
     (by norm_num)).2 (by decide) (by decide)⟩

/-! ### Border auto-crop bounds -/

theorem findD_range_le (n : Nat) (p : Nat → Bool) :
    ((List.range n).find? p).getD n ≤ n := by
  cases hf : (List.range n).find? p with
  | none => simp
  | some a =>
    have ha := List.mem_range.mp (List.mem_of_find?_eq_some hf)
    simp only [Option.getD_some]
    omega

theorem crop_left_le (pix : Pix) (w h : Nat) : crop_left pix w h ≤ w / 2 :=
  findD_range_le _ _

theorem crop_right_bounds (pix : Pix) (w h l : Nat) (hw : 0 < w) (hl : l ≤ w / 2) :
    l ≤ crop_right pix w h l ∧ crop_right pix w h l ≤ w - 1 := by
  unfold crop_right
  split_ifs with hcase
  · omega
  · cases hf : (List.range' (l + 101) (w - 1 - (l + 100))).reverse.find?
        (colHasContent pix h) with
    | none => simp only [Option.getD_none]; omega
    | some a =>
      have ha := List.mem_of_find?_eq_some hf
      rw [List.mem_reverse] at ha
      have hb := List.mem_range'_1.mp ha
      simp only [Option.getD_some]
      omega

theorem crop_top_le (pix : Pix) (h l r : Nat) : crop_top pix h l r ≤ h / 2 :=
  findD_range_le _ _

theorem crop_bottom_bounds (pix : Pix) (h l r t : Nat) (hh : 0 < h) (ht : t ≤ h / 2) :
    t ≤ crop_bottom pix h l r t ∧ crop_bottom pix h l r t ≤ h - 1 := by
  unfold crop_bottom
  split_ifs with hcase
  · omega
  · cases hf : (List.range' (t + 101) (h - 1 - (t + 100))).reverse.find?
        (rowHasContent pix l r) with
    | none => simp only [Option.getD_none]; omega
    | some a =>
      have ha := List.mem_of_find?_eq_some hf
      rw [List.mem_reverse] at ha
      have hb := List.mem_range'_1.mp ha
      simp only [Option.getD_some]
      omega

/-- C6: for any decoded surface (positive dimensions) the crop rectangle
stored by `create_texture` has positive width and height and lies within
the image bounds; the degenerate fallback (replacing an empty rectangle
by the full image) is part of the computation and its result satisfies
the same bounds. -/
theorem create_texture_crop_bounds (pix : Pix) (w h : Nat) (hw : 0 < w) (hh : 0 < h) :
    0 < (create_texture_crop pix w h).w ∧ 0 < (create_texture_crop pix w h).h ∧
    0 ≤ (create_texture_crop pix w h).x ∧ 0 ≤ (create_texture_crop pix w h).y ∧
    (create_texture_crop pix w h).x + (create_texture_crop pix w h).w ≤ (w : Int) ∧
    (create_texture_crop pix w h).y + (create_texture_crop pix w h).h ≤ (h : Int) := by
  have hl := crop_left_le pix w h
  have hr := crop_right_bounds pix w h (crop_left pix w h) hw hl
  have ht := crop_top_le pix h (crop_left pix w h) (crop_right pix w h (crop_left pix w h))
  have hb := crop_bottom_bounds pix h (crop_left pix w h)
    (crop_right pix w h (crop_left pix w h))
    (crop_top pix h (crop_left pix w h) (crop_right pix w h (crop_left pix w h))) hh ht
  unfold create_texture_crop
  dsimp only
  split_ifs with hdeg
  · refine ⟨?_, ?_, by simp, by simp, by simp, by simp⟩ <;> · show (0 : Int) < _; omega
  · dsimp only
    omega

/-- Witness for C6 at a concrete all-white 1×1 surface. -/
theorem create_texture_crop_bounds_witness :
    0 < (create_texture_crop (fun _ _ => ⟨255, 255, 255⟩) 1 1).w ∧
    0 < (create_texture_crop (fun _ _ => ⟨255, 255, 255⟩) 1 1).h ∧
    0 ≤ (create_texture_crop (fun _ _ => ⟨255, 255, 255⟩) 1 1).x ∧
    0 ≤ (create_texture_crop (fun _ _ => ⟨255, 255, 255⟩) 1 1).y ∧
    (create_texture_crop (fun _ _ => ⟨255, 255, 255⟩) 1 1).x +
      (create_texture_crop (fun _ _ => ⟨255, 255, 255⟩) 1 1).w ≤ ((1 : Nat) : Int) ∧
    (create_texture_crop (fun _ _ => ⟨255, 255, 255⟩) 1 1).y +
      (create_texture_crop (fun _ _ => ⟨255, 255, 255⟩) 1 1).h ≤ ((1 : Nat) : Int) :=
  create_texture_crop_bounds (fun _ _ => ⟨255, 255, 255⟩) 1 1 (by decide) (by decide)

/-! ### Dominant-colour histogram lemmas -/

theorem histGet_bump (f : List (Nat × Nat)) (k : Nat) :
    histGet (histBump f k) k = histGet f k + 1 := by
  induction f with
  | nil => simp [histBump, histGet]
  | cons e t ih =>
    unfold histBump
    by_cases he : e.1 = k
    · rw [if_pos he]
      unfold histGet
      rw [List.find?_cons_of_pos _ (by simp), List.find?_cons_of_pos _ (by simp [he])]
      simp
    · rw [if_neg he]
      unfold histGet at ih ⊢
      rw [List.find?_cons_of_neg _ (by simp [he]), List.find?_cons_of_neg _ (by simp [he])]
      exact ih

theorem histStep_maxFreq_le (st : HistSt) (k : Nat) :
    st.maxFreq ≤ (histStep st k).maxFreq := by
  unfold histStep
  dsimp only
  split_ifs with hlt
  · dsimp only
    omega
  · exact le_refl _

theorem histStep_maxFreq_pos (st : HistSt) (k : Nat) :
    0 < (histStep st k).maxFreq := by
  have hg := histGet_bump st.freq k
  unfold histStep
  dsimp only
  split_ifs with hlt
  · dsimp only
    omega
  · dsimp only
    omega

theorem gdc_step_maxFreq_mono (w h : Nat) (pix : Pix) (st : HistSt) (p : Nat × Nat) :
    st.maxFreq ≤ ((match gdcContrib w h pix p with
      | none => st
      | some b => histStep st b) : HistSt).maxFreq := by
  cases gdcContrib w h pix p with
  | none => exact le_refl _
  | some b => exact histStep_maxFreq_le st b

theorem gdc_foldl_maxFreq_mono (w h : Nat) (pix : Pix) (l : List (Nat × Nat)) :
    ∀ st : HistSt, st.maxFreq ≤ (List.foldl (fun s p => match gdcContrib w h pix p with
      | none => s
      | some b => histStep s b) st l).maxFreq := by
  induction l with
  | nil => intro st; exact le_refl _
  | cons q rest ih =>
    intro st
    rw [List.foldl_cons]
    exact le_trans (gdc_step_maxFreq_mono w h pix st q) (ih _)

theorem gdcFold_single_aux (w h : Nat) (pix : Pix) (B : Nat) (pts : List (Nat × Nat)) :
    ∀ st : HistSt,
      (∀ p ∈ pts, gdcContrib w h pix p = none ∨ gdcContrib w h pix p = some B) →
      (st = histInit ∨ ∃ k, 0 < k ∧ st = ⟨[(B, k)], k, B⟩) →
      (List.foldl (fun s p => match gdcContrib w h pix p with
          | none => s
          | some b => histStep s b) st pts = histInit ∨
        ∃ k, 0 < k ∧ List.foldl (fun s p => match gdcContrib w h pix p with
          | none => s
          | some b => histStep s b) st pts = ⟨[(B, k)], k, B⟩) := by
  induction pts with
  | nil => intro st _ hst; simpa using hst
  | cons q rest ih =>
    intro st hpts hst
    rw [List.foldl_cons]
    apply ih
    · intro p hp
      exact hpts p (List.mem_cons_of_mem _ hp)
    · rcases hpts q (List.mem_cons_self _ _) with hq | hq
      · rw [hq]
        exact hst
      · rw [hq]
        dsimp only
        rcases hst with h0 | ⟨k, hk, hs⟩
        · right
          refine ⟨1, Nat.one_pos, ?_⟩
          rw [h0]
          simp [histStep, histBump, histGet, histInit]
        · right
          refine ⟨k + 1, by omega, ?_⟩
          rw [hs]
          simp [histStep, histBump, histGet]

theorem gdcFold_pos_of_contrib (w h : Nat) (pix : Pix) (pts : List (Nat × Nat))
    (q : Nat × Nat) (hq : q ∈ pts) (B : Nat) (hc : gdcContrib w h pix q = some B) :
    0 < (gdcFold w h pix pts).maxFreq := by
  obtain ⟨l1, l2, rfl⟩ := List.append_of_mem hq
  unfold gdcFold
  rw [List.foldl_append, List.foldl_cons]
  refine lt_of_lt_of_le ?_ (gdc_foldl_maxFreq_mono w h pix l2 _)
  rw [hc]
  exact histStep_maxFreq_pos _ B

/-- C9: dominant-colour extraction returns black when the histogram
cannot be allocated; sample points that are near-black (all channels
below 15) or near-white (all channels above 240) contribute nothing; and
on any image whose left `edge_width` strip (8% of the width, the region
`analyze_image_left_edge` samples) is solid pure red, the extracted
dominant colour is exactly pure red — the 5-bit bucket requantization
maps the red bucket back onto (255,0,0). -/
theorem dominant_color_spec :
    (∀ (w h : Nat) (pix : Pix) (x y rw rh : Nat),
      get_dominant_color false w h pix x y rw rh = ⟨0, 0, 0⟩) ∧
    (∀ (w h : Nat) (pix : Pix) (p : Nat × Nat),
      (nearBlack (pix p.1 p.2) || nearWhite (pix p.1 p.2)) = true →
      gdcContrib w h pix p = none) ∧
    (∀ (w h : Nat) (pix : Pix), 0 < w → 0 < h →
      (∀ i j, i < edge_width w → pix i j = ⟨255, 0, 0⟩) →
      analyze_image_left_edge true w h pix = ⟨255, 0, 0⟩) := by
  refine ⟨fun w h pix x y rw rh => by simp [get_dominant_color],
    fun w h pix p hbw => ?_, fun w h pix hw hh hred => ?_⟩
  · unfold gdcContrib
    split_ifs with h1
    · rfl
    · dsimp only
      rw [if_pos hbw]
  · have hew : 0 < edge_width w := by
      unfold edge_width
      omega
    have hcontrib : ∀ p ∈ gdcPoints 0 0 (edge_width w) h,
        gdcContrib w h pix p = none ∨
        gdcContrib w h pix p = some (bucketIdx ⟨255, 0, 0⟩) := by
      intro p hp
      rw [gdcPoints, List.mem_flatMap] at hp
      obtain ⟨j, hj, hp2⟩ := hp
      rw [List.mem_map] at hp2
      obtain ⟨i, hi, rfl⟩ := hp2
      unfold sampleFrom at hi
      rw [List.mem_map] at hi
      obtain ⟨ki, hki, rfl⟩ := hi
      rw [List.mem_range] at hki
      have hilt : 0 + 2 * ki < edge_width w := by omega
      unfold gdcContrib
      split_ifs with h1
      · exact Or.inl rfl
      · right
        dsimp only
        rw [hred (0 + 2 * ki) j hilt]
        rw [if_neg (by decide)]
    have hsingle : gdcFold w h pix (gdcPoints 0 0 (edge_width w) h) = histInit ∨
        ∃ k, 0 < k ∧ gdcFold w h pix (gdcPoints 0 0 (edge_width w) h)
          = ⟨[(bucketIdx ⟨255, 0, 0⟩, k)], k, bucketIdx ⟨255, 0, 0⟩⟩ :=
      gdcFold_single_aux w h pix (bucketIdx ⟨255, 0, 0⟩)
        (gdcPoints 0 0 (edge_width w) h) histInit hcontrib (Or.inl rfl)
    have hq0 : ((0 : Nat), (0 : Nat)) ∈ gdcPoints 0 0 (edge_width w) h := by
      rw [gdcPoints, List.mem_flatMap]
      refine ⟨0, ?_, ?_⟩
      · unfold sampleFrom
        rw [List.mem_map]
        exact ⟨0, by rw [List.mem_range]; omega, by omega⟩
      · rw [List.mem_map]
        refine ⟨0, ?_, rfl⟩
        unfold sampleFrom
        rw [List.mem_map]
        exact ⟨0, by rw [List.mem_range]; omega, by omega⟩
    have hc0 : gdcContrib w h pix ((0 : Nat), (0 : Nat)) = some (bucketIdx ⟨255, 0, 0⟩) := by
      unfold gdcContrib
      rw [if_neg (by push_neg; omega)]
      dsimp only
      rw [hred 0 0 hew]
      rw [if_neg (by decide)]
    have hpos := gdcFold_pos_of_contrib w h pix (gdcPoints 0 0 (edge_width w) h)
      ((0 : Nat), (0 : Nat)) hq0 (bucketIdx ⟨255, 0, 0⟩) hc0
    unfold analyze_image_left_edge get_dominant_color
    rw [if_neg (by simp)]
    dsimp only
    rcases hsingle with h0 | ⟨k, hk, hs⟩
    · rw [h0] at hpos
      exact absurd hpos (by simp [histInit])
    · rw [hs]
      rw [if_pos (by simpa using hk)]
      have hb : bucketIdx ⟨255, 0, 0⟩ = 31744 := by decide
      dsimp only
      rw [hb]
      decide

/-- Witness for C9 at a concrete 1×1 pure-red image. -/
theorem dominant_color_spec_witness :
    analyze_image_left_edge true 1 1 (fun _ _ => ⟨255, 0, 0⟩) = ⟨255, 0, 0⟩ :=
  dominant_color_spec.2.2 1 1 (fun _ _ => ⟨255, 0, 0⟩) (by decide) (by decide)
    (fun _ _ _ => rfl)

/-! ### Progress-event traces -/

theorem cbz_scan_events_mem (M : Nat) (q : ℚ) (hq : q ∈ cbz_scan_events M) :
    1 / 5 ≤ q ∧ q < 9 / 10 := by
  unfold cbz_scan_events at hq
  rw [List.mem_map] at hq
  obtain ⟨i, hi, rfl⟩ := hq
  have him : i ∈ List.range M := List.mem_of_mem_filter hi
  rw [List.mem_range] at him
  have hMn : 0 < M := by omega
  have hM : (0 : ℚ) < (M : ℚ) := by exact_mod_cast hMn
  have heq : (7 : ℚ) / 10 * (i : ℚ) / (M : ℚ) = 7 / 10 * ((i : ℚ) / (M : ℚ)) := by ring
  have h0 : (0 : ℚ) ≤ (i : ℚ) / (M : ℚ) := by positivity
  have h1 : (i : ℚ) / (M : ℚ) < 1 := by
    rw [div_lt_one hM]
    exact_mod_cast him
  rw [heq]
  constructor
  · nlinarith
  · nlinarith

theorem cbz_scan_events_pairwise (M : Nat) :
    (cbz_scan_events M).Pairwise (· ≤ ·) := by
  unfold cbz_scan_events
  refine List.Pairwise.map _ ?_
    (List.Pairwise.sublist (List.filter_sublist _) (List.pairwise_lt_range M))
  intro a b hab
  rcases Nat.eq_zero_or_pos M with hM | hM
  · subst hM
    simp
  · have hM2 : (0 : ℚ) < (M : ℚ) := by exact_mod_cast hM
    have : (a : ℚ) / (M : ℚ) ≤ (b : ℚ) / (M : ℚ) := by
      rw [div_le_div_iff_of_pos_right hM2]
      exact_mod_cast le_of_lt hab
    have heqa : (7 : ℚ) / 10 * (a : ℚ) / (M : ℚ) = 7 / 10 * ((a : ℚ) / (M : ℚ)) := by ring
    have heqb : (7 : ℚ) / 10 * (b : ℚ) / (M : ℚ) = 7 / 10 * ((b : ℚ) / (M : ℚ)) := by ring
    rw [heqa, heqb]
    nlinarith

theorem cbz_scan_count_one (M : Nat) : (cbz_scan_events M).count 1 = 0 := by
  rw [List.count_eq_zero]
  intro hmem
  have := (cbz_scan_events_mem M 1 hmem).2
  norm_num at this

theorem cbz_events_pairwise_tail (M : Nat) (tail : List ℚ)
    (htail : ∀ b ∈ tail, (9 : ℚ) / 10 ≤ b) (htp : tail.Pairwise (· ≤ ·)) :
    ((0 : ℚ) :: 1 / 10 :: 1 / 5 :: (cbz_scan_events M ++ tail)).Pairwise (· ≤ ·) := by
  have hsc := cbz_scan_events_mem M
  refine List.pairwise_cons.mpr ⟨?_, List.pairwise_cons.mpr ⟨?_, List.pairwise_cons.mpr
    ⟨?_, ?_⟩⟩⟩
  · intro b hb
    rcases List.mem_cons.mp hb with rfl | hb
    · norm_num
    rcases List.mem_cons.mp hb with rfl | hb
    · norm_num
    rcases List.mem_append.mp hb with hb | hb
    · have := (hsc b hb).1
      linarith
    · have := htail b hb
      linarith
  · intro b hb
    rcases List.mem_cons.mp hb with rfl | hb
    · norm_num
    rcases List.mem_append.mp hb with hb | hb
    · have := (hsc b hb).1
      linarith
    · have := htail b hb
      linarith
  · intro b hb
    rcases List.mem_append.mp hb with hb | hb
    · exact (hsc b hb).1
    · have := htail b hb
      linarith
  · refine List.pairwise_append.mpr ⟨cbz_scan_events_pairwise M, htp, ?_⟩
    intro a ha b hb
    have h1 := (hsc a ha).2
    have h2 := htail b hb
    linarith

theorem load_directory_success_trace (k : Nat) :
    ((0 : ℚ) :: (List.replicate k ((1 : ℚ) / 2) ++ [7 / 10, 9 / 10, 1])).Chain' (· ≤ ·) ∧
    ((0 : ℚ) :: (List.replicate k ((1 : ℚ) / 2) ++ [7 / 10, 9 / 10, 1])).count 1 = 1 ∧
    ((0 : ℚ) :: (List.replicate k ((1 : ℚ) / 2) ++ [7 / 10, 9 / 10, 1])).getLast?
      = some 1 := by
  refine ⟨List.Pairwise.chain' ?_, ?_, ?_⟩
  · refine List.pairwise_cons.mpr ⟨?_, List.pairwise_append.mpr ⟨?_, ?_, ?_⟩⟩
    · intro b hb
      rcases List.mem_append.mp hb with hb | hb
      · rw [List.eq_of_mem_replicate hb]
        norm_num
      · fin_cases hb <;> norm_num
    · rw [List.pairwise_replicate]
      right
      exact le_refl _
    · norm_num [List.pairwise_cons]
    · intro a ha b hb
      rw [List.eq_of_mem_replicate ha]
      fin_cases hb <;> norm_num
  · rw [List.count_cons, List.count_append, List.count_replicate]
    norm_num [List.count_cons]
  · have hsplit : (0 : ℚ) :: (List.replicate k ((1 : ℚ) / 2) ++ [7 / 10, 9 / 10, 1])
        = ((0 : ℚ) :: (List.replicate k ((1 : ℚ) / 2) ++ [7 / 10, 9 / 10])) ++ [1] := by
      simp
    rw [hsplit, List.getLast?_concat]

/-- C7 counterexample: `cbz_open` on an archive whose `zip_open` fails
reports only the initial `0.0` and returns failure without any terminal
`1.0` call, refuting "exactly one terminal 1.0 per open attempt
(success or failure)"; `load_directory` behaves the same when `opendir`
fails. -/
theorem cbz_open_failure_without_terminal :
    (cbz_open image_name_compare_natural ⟨false, true, true, ["a.png".toList]⟩
      "t".toList).1 = none ∧
    (cbz_open image_name_compare_natural ⟨false, true, true, ["a.png".toList]⟩
      "t".toList).2 = [0] ∧
    (cbz_open image_name_compare_natural ⟨false, true, true, ["a.png".toList]⟩
      "t".toList).2.count 1 = 0 ∧
    (load_directory_events false "d".toList [("a.png".toList, true)] 1000).2 = false ∧
    (load_directory_events false "d".toList [("a.png".toList, true)] 1000).1.count 1
      = 0 := by
  refine ⟨rfl, rfl, ?_, rfl, ?_⟩
  · norm_num [cbz_open, List.count_cons]
  · norm_num [load_directory_events, List.count_cons]

/-- C7 (amended): for every open attempt of `load_directory`,
`cbz_open`, `cbr_open` and `pdf_open` the reported progress fractions
are monotonically non-decreasing; every successful attempt ends with
exactly one terminal `1.0` call, and `pdf_open` does so on every
failure path as well — but `cbz_open`, `cbr_open` and `load_directory`
have failure paths that end without any `1.0` call (see the
counterexample). -/
theorem progress_events_amended :
    (∀ (dirOk : Bool) (dirPath : List Char) (listing : List (List Char × Bool))
        (maxI : Nat),
      (load_directory_events dirOk dirPath listing maxI).1.Chain' (· ≤ ·) ∧
      ((load_directory_events dirOk dirPath listing maxI).2 = true →
        (load_directory_events dirOk dirPath listing maxI).1.count 1 = 1 ∧
        (load_directory_events dirOk dirPath listing maxI).1.getLast? = some 1)) ∧
    (∀ (cmp : List Char → List Char → Int) (env : CbzEnv) (tempDir : List Char),
      (cbz_open cmp env tempDir).2.Chain' (· ≤ ·) ∧
      ((cbz_open cmp env tempDir).1.isSome = true →
        (cbz_open cmp env tempDir).2.count 1 = 1 ∧
        (cbz_open cmp env tempDir).2.getLast? = some 1)) ∧
    (∀ (unrarOk mkdtempOk popenOk allocOk : Bool) (lines : List (List Char)),
      (cbr_open_events unrarOk mkdtempOk popenOk allocOk lines).1.Chain' (· ≤ ·) ∧
      ((cbr_open_events unrarOk mkdtempOk popenOk allocOk lines).2 = true →
        (cbr_open_events unrarOk mkdtempOk popenOk allocOk lines).1.count 1 = 1 ∧
        (cbr_open_events unrarOk mkdtempOk popenOk allocOk lines).1.getLast?
          = some 1)) ∧
    (∀ (mkdtempOk : Bool) (nPages : Int) (allocOk : Bool),
      (pdf_open_events mkdtempOk nPages allocOk).1.Chain' (· ≤ ·) ∧
      (pdf_open_events mkdtempOk nPages allocOk).1.count 1 = 1 ∧
      (pdf_open_events mkdtempOk nPages allocOk).1.getLast? = some 1) := by
  refine ⟨?_, ?_, ?_, ?_⟩
  · intro dirOk dirPath listing maxI
    unfold load_directory_events
    by_cases h1 : dirOk = true
    case neg =>
      rw [if_pos h1]
      exact ⟨by simp, fun hf => by simp at hf⟩
    rw [if_neg (not_not_intro h1)]
    dsimp only
    by_cases h2 : (load_directory_found dirPath listing maxI).length = 0
    · rw [if_pos h2, h2]
      refine ⟨?_, fun hf => by simp at hf⟩
      norm_num [List.chain'_cons, List.chain'_singleton]
    · rw [if_neg h2]
      have ht := load_directory_success_trace
        ((load_directory_found dirPath listing maxI).length / 5)
      exact ⟨ht.1, fun _ => ⟨ht.2.1, ht.2.2⟩⟩
  · intro cmp env tempDir
    unfold cbz_open
    by_cases h1 : env.zipOk = true
    case neg =>
      rw [if_pos h1]
      exact ⟨by simp, fun hf => by simp at hf⟩
    rw [if_neg (not_not_intro h1)]
    by_cases h2 : env.entries.length = 0
    · rw [if_pos h2]
      exact ⟨by simp, fun hf => by simp at hf⟩
    rw [if_neg h2]
    by_cases h3 : env.mkdtempOk = true
    case neg =>
      rw [if_pos h3]
      exact ⟨by norm_num [List.chain'_cons, List.chain'_singleton],
        fun hf => by simp at hf⟩
    rw [if_neg (not_not_intro h3)]
    by_cases h4 : env.allocOk = true
    case neg =>
      rw [if_pos h4]
      exact ⟨by norm_num [List.chain'_cons, List.chain'_singleton],
        fun hf => by simp at hf⟩
    rw [if_neg (not_not_intro h4)]
    dsimp only
    by_cases h5 : (cbz_image_entries env.entries).length = 0
    · rw [if_pos h5]
      refine ⟨?_, fun hf => by simp at hf⟩
      refine List.Pairwise.chain' ?_
      have := cbz_events_pairwise_tail env.entries.length [] (by simp) (by simp)
      simpa using this
    · rw [if_neg h5]
      refine ⟨?_, fun _ => ⟨?_, ?_⟩⟩
      · refine List.Pairwise.chain' ?_
        have htail : ∀ b ∈ ([1] : List ℚ), (9 : ℚ) / 10 ≤ b := by
          intro b hb
          rcases List.mem_cons.mp hb with rfl | hb
          · norm_num
          · simp at hb
        exact cbz_events_pairwise_tail env.entries.length [1] htail (by simp)
      · simp only [List.count_cons, List.count_append, cbz_scan_count_one]
        norm_num [List.count_cons]
      · show ((0 : ℚ) :: 1 / 10 :: 1 / 5 :: (cbz_scan_events env.entries.length
            ++ [1])).getLast? = some 1
        have hsplit : (0 : ℚ) :: 1 / 10 :: 1 / 5 :: (cbz_scan_events env.entries.length
            ++ [1]) = ((0 : ℚ) :: 1 / 10 :: 1 / 5 :: cbz_scan_events env.entries.length)
              ++ [1] := by simp
        rw [hsplit, List.getLast?_concat]
  · intro unrarOk mkdtempOk popenOk allocOk lines
    unfold cbr_open_events
    split_ifs <;>
      refine ⟨?_, ?_⟩ <;>
      first
        | (intro hf
           simp at hf
           done)
        | (intro hf
           refine ⟨?_, rfl⟩
           show List.count (1 : ℚ) [(0 : ℚ), 1 / 10, 4 / 5, 1] = 1
           norm_num [List.count_cons])
        | (show List.Chain' (· ≤ ·) [(0 : ℚ), 1 / 10, 4 / 5, 1]
           norm_num [List.chain'_cons, List.chain'_singleton])
        | (show List.Chain' (· ≤ ·) [(0 : ℚ), 1 / 10]
           norm_num [List.chain'_cons, List.chain'_singleton])
        | (show List.Chain' (· ≤ ·) [(0 : ℚ), 1]
           norm_num [List.chain'_cons, List.chain'_singleton])
        | (show List.Chain' (· ≤ ·) [(0 : ℚ)]
           simp)
  · intro mkdtempOk nPages allocOk
    unfold pdf_open_events
    split_ifs <;>
      refine ⟨?_, ?_, rfl⟩ <;>
      first
        | (show List.Chain' (· ≤ ·) [(0 : ℚ), 1 / 10, 1]
           norm_num [List.chain'_cons, List.chain'_singleton])
        | (show List.Chain' (· ≤ ·) [(0 : ℚ), 1 / 10, 1 / 5, 1]
           norm_num [List.chain'_cons, List.chain'_singleton])
        | (show List.Chain' (· ≤ ·) [(0 : ℚ), 1 / 10, 1 / 5, 3 / 5, 1]
           norm_num [List.chain'_cons, List.chain'_singleton])
        | (show List.count (1 : ℚ) [(0 : ℚ), 1 / 10, 1] = 1
           norm_num [List.count_cons])
        | (show List.count (1 : ℚ) [(0 : ℚ), 1 / 10, 1 / 5, 1] = 1
           norm_num [List.count_cons])
        | (show List.count (1 : ℚ) [(0 : ℚ), 1 / 10, 1 / 5, 3 / 5, 1] = 1
           norm_num [List.count_cons])

/-- Witness for C7's amended theorem: a successful `cbz_open` trace has
exactly one terminal 1.0 report. -/
theorem progress_events_amended_witness :
    (cbz_open image_name_compare_natural ⟨true, true, true, ["a.png".toList]⟩
      "t".toList).2.count 1 = 1 ∧
    (cbz_open image_name_compare_natural ⟨true, true, true, ["a.png".toList]⟩
      "t".toList).2.getLast? = some 1 :=
  (progress_events_amended.2.1 image_name_compare_natural
    ⟨true, true, true, ["a.png".toList]⟩ "t".toList).2 rfl

end IC
